import Mathlib

/-!
# Rebooter: host-list parsing, per-host processing and the main pipeline

A shallow embedding of `main.go`.  A Go string is modelled as the list of its
code points (the file is taken to be valid UTF-8); the operating system, the
remote-shell library and the network are modelled as an explicit `World` of
answers, and every effect the program performs is recorded in a trace of
`Event`s.  The unbounded polling loop of `waitForHost` takes a fuel argument
bounding the number of probes; a run that uses up its fuel is `pending`.
-/

set_option autoImplicit false

namespace Rebooter

/-! ## Strings and the standard-library functions the program calls -/

/-- A Go string, as the list of its code points. -/
abbrev GoString := List Char

/-- Go `unicode.IsSpace`: the characters `strings.TrimSpace` removes. -/
def isSpace (c : Char) : Bool :=
  c.toNat = 0x09 || c.toNat = 0x0A || c.toNat = 0x0B || c.toNat = 0x0C || c.toNat = 0x0D ||
  c.toNat = 0x20 || c.toNat = 0x85 || c.toNat = 0xA0 || c.toNat = 0x1680 ||
  (0x2000 ≤ c.toNat && c.toNat ≤ 0x200A) || c.toNat = 0x2028 || c.toNat = 0x2029 ||
  c.toNat = 0x202F || c.toNat = 0x205F || c.toNat = 0x3000

/-- Go `strings.TrimSpace`: drop leading and trailing white space. -/
def TrimSpace (s : GoString) : GoString :=
  (((s.dropWhile isSpace).reverse).dropWhile isSpace).reverse

/-- Go `strings.Split(s, sep)` (and `strings.SplitSeq`) for a one-character
separator: the pieces of `s` between the occurrences of `sep`, in order; a
string with `n` separators gives `n + 1` pieces, the empty string gives one. -/
def Split (s : GoString) (sep : Char) : List GoString :=
  match s with
  | [] => [[]]
  | c :: cs =>
    if c = sep then [] :: Split cs sep
    else
      match Split cs sep with
      | [] => [[c]]
      | t :: ts => (c :: t) :: ts

/-- Go `net.JoinHostPort`: "If host contains a colon, as found in literal IPv6
addresses, then JoinHostPort returns [host]:port", and host:port otherwise.
The colon is the only character it looks for. -/
def JoinHostPort (host port : GoString) : GoString :=
  if ':' ∈ host then "[".toList ++ host ++ "]:".toList ++ port
  else host ++ ":".toList ++ port

/-! ## Data model -/

/-- The Go struct `Host`. -/
structure Host where
  hostname : GoString
  workload : Bool
deriving DecidableEq, Repr

/-- The body of the `for line := range strings.SplitSeq(fileStr, "\n")` loop of
`getHosts`, over the lines still to read and the slice `hosts` built so far.
The result is the Go pair `([]Host, error)`, `none` standing for `nil`. -/
def getHostsLoop : List GoString → List Host → Option (List Host) × Option GoString
  | [], hosts => (some hosts, none)
  | line :: rest, hosts =>
    let line := TrimSpace line
    if line = [] then getHostsLoop rest hosts
    else
      let host := Split line ' '
      if host.length = 1 then
        getHostsLoop rest (hosts ++ [{ hostname := host.getD 0 [], workload := false }])
      else if host.length = 2 ∧ host.getD 1 [] = "workload".toList then
        getHostsLoop rest (hosts ++ [{ hostname := host.getD 0 [], workload := true }])
      else
        (none, some ("Can't parse hostname: ".toList ++ line ++ "\n".toList))

/-- The Go function `getHosts`; `readFile` is `os.ReadFile` (`none` when the
file cannot be read). -/
def getHosts (readFile : GoString → Option GoString) (fileName : GoString) :
    Option (List Host) × Option GoString :=
  match readFile fileName with
  | none => (none, some ("Can't read file ".toList ++ fileName ++ "\n".toList))
  | some fileStr => getHostsLoop (Split fileStr '\n') []

/-! ## The outside world and the effects of the program -/

/-- The result of `ssh.ParsePrivateKey`, an `ssh.Signer`. -/
structure Signer where
  id : Nat
deriving DecidableEq, Repr

/-- The fields `getSSHConfig` sets in `ssh.ClientConfig`: `Auth` is the one
method `ssh.PublicKeys(signer)`, `HostKeyCallback` is
`ssh.InsecureIgnoreHostKey()`, `Timeout` is in seconds. -/
structure ClientConfig where
  User : GoString
  Auth : List Signer
  insecureIgnoreHostKey : Bool
  Timeout : Nat
deriving DecidableEq, Repr

/-- The classified outcome of `session.Run`: `nil`, the
`*ssh.ExitMissingError` condition, or any other error with its text. -/
inductive RunOutcome where
  | success
  | exitMissing
  | otherError (msg : GoString)
deriving DecidableEq, Repr

/-- The Go test `err != nil` on the outcome of `session.Run`. -/
def RunOutcome.isError : RunOutcome → Bool
  | .success => false
  | _ => true

/-- The Go test `errors.Is(err, &ssh.ExitMissingError{})` on the classified
outcome. -/
def RunOutcome.isExitMissing : RunOutcome → Bool
  | .exitMissing => true
  | _ => false

/-- The text of the error `session.Run` returned. -/
def RunOutcome.message : RunOutcome → GoString
  | .success => []
  | .exitMissing => "wait: remote command exited without exit status or exit signal".toList
  | .otherError msg => msg

/-- What one call of `processHost` meets: the error of `ssh.Dial`, of
`client.NewSession`, the outcome of `session.Run`, and the error of the `i`-th
`net.DialTimeout` probe (`none` is always "no error"). -/
structure HostWorld where
  dial : Option GoString
  newSession : Option GoString
  run : RunOutcome
  probe : Nat → Option GoString

/-- The answers of the file system, the key parser and the network; `host i`
is met by the `i`-th call of `processHost`. -/
structure World where
  readFile : GoString → Option GoString
  parsePrivateKey : GoString → Option Signer
  parsePrivateKeyWithPassphrase : GoString → GoString → Option Signer
  host : Nat → HostWorld

/-- An `*ssh.Session`: what `Run` will answer on it. -/
structure Session where
  run : RunOutcome
deriving DecidableEq, Repr

/-- The observable effects, in program order. -/
inductive Event where
  | print (text : GoString)
  | readFile (name : GoString)
  | sshDial (address : GoString) (config : Option ClientConfig)
  | newSession
  | sessionRun (cmd : GoString)
  | dialTimeout (address : GoString) (seconds : Nat)
  | connClose
  | sleep (seconds : Nat)
deriving DecidableEq, Repr

/-- A run of code that may loop: it returned `val` after the effects `trace`,
or it is still looping after `trace` when the fuel is used up. -/
inductive Run (α : Type) where
  | done (trace : List Event) (val : α)
  | pending (trace : List Event)
deriving DecidableEq, Repr

/-- The effects of a run so far. -/
def Run.trace {α : Type} : Run α → List Event
  | .done t _ => t
  | .pending t => t

/-- The parsed command-line flags of `main`. -/
structure Flags where
  user : GoString
  key : GoString
  passphrase : GoString
  port : GoString
  hosts : GoString
deriving DecidableEq, Repr

/-! ## The functions of `main.go` -/

/-- The Go function `getSSHConfig`. -/
def getSSHConfig (w : World) (keyPath passphrase username : GoString) :
    Option ClientConfig × Option GoString :=
  match w.readFile keyPath with
  | none => (none, some "Can't read private key file".toList)
  | some key =>
    let signer :=
      if passphrase ≠ [] then w.parsePrivateKeyWithPassphrase key passphrase
      else w.parsePrivateKey key
    match signer with
    | none => (none, some "Can't parse private key file".toList)
    | some signer =>
      (some { User := username, Auth := [signer], insecureIgnoreHostKey := true, Timeout := 10 },
        none)

/-- The Go function `getSession`, with its effects: the error of `ssh.Dial`
or of `client.NewSession`, or the session. -/
def getSession (w : HostWorld) (address : GoString) (config : Option ClientConfig) :
    List Event × Except GoString Session :=
  match w.dial with
  | some err => ([.sshDial address config], .error err)
  | none =>
    match w.newSession with
    | some err => ([.sshDial address config, .newSession], .error err)
    | none => ([.sshDial address config, .newSession], .ok { run := w.run })

/-- The Go function `rebootMachine`, with its effects. -/
def rebootMachine (session : Session) : List Event × Option GoString :=
  let err := session.run
  if err.isError ∧ ¬ err.isExitMissing then
    ([.sessionRun "sudo reboot".toList], some err.message)
  else
    ([.sessionRun "sudo reboot".toList], none)

/-- The `for` loop of `waitForHost`: `fuel` bounds the probes still allowed,
`i` counts the probes made, `tr` is the trace so far. -/
def waitForHostLoop (probe : Nat → Option GoString) (address host : GoString) :
    Nat → Nat → List Event → Run Unit
  | 0, _, tr => .pending tr
  | fuel + 1, i, tr =>
    match probe i with
    | none => .done (tr ++ [.dialTimeout address 2, .connClose]) ()
    | some err =>
      waitForHostLoop probe address host fuel (i + 1)
        (tr ++ [.dialTimeout address 2,
                .print ("Host ".toList ++ host ++ " is not reachable yet: ".toList ++ err ++
                  "\n".toList),
                .sleep 1])

/-- The Go function `waitForHost`, allowed at most `fuel` probes. -/
def waitForHost (fuel : Nat) (probe : Nat → Option GoString) (host port : GoString) :
    Run (Option GoString) :=
  let address := JoinHostPort host port
  match waitForHostLoop probe address host fuel 0 [] with
  | .pending tr => .pending tr
  | .done tr _ => .done (tr ++ [.print ("Host ".toList ++ host ++ " is back online\n".toList)]) none

/-- The address `processHost` dials: `fmt.Sprintf("%s:%s", hostname, port)`. -/
def dialAddress (hostname port : GoString) : GoString :=
  hostname ++ ":".toList ++ port

/-- The Go function `processHost`, allowed at most `fuel` probes. -/
def processHost (fuel : Nat) (w : HostWorld) (host : Host) (port : GoString)
    (config : Option ClientConfig) : Run (Option GoString) :=
  let address := dialAddress host.hostname port
  let tr0 : List Event := [.print ("\nRebooting ".toList ++ host.hostname ++ "\n".toList)]
  match getSession w address config with
  | (tr1, .error err) => .done (tr0 ++ tr1) (some err)
  | (tr1, .ok session) =>
    match rebootMachine session with
    | (tr2, some err) => .done (tr0 ++ tr1 ++ tr2) (some err)
    | (tr2, none) =>
      match waitForHost fuel w.probe host.hostname port with
      | .pending tr3 => .pending (tr0 ++ tr1 ++ tr2 ++ tr3)
      | .done tr3 (some err) => .done (tr0 ++ tr1 ++ tr2 ++ tr3) (some err)
      | .done tr3 none => .done (tr0 ++ tr1 ++ tr2 ++ tr3) none

/-- The `for _, host := range hosts` loop of `main`: `i` counts the hosts
processed, `tr` is the trace so far; the value is the exit code. -/
def mainLoop (fuel : Nat) (hostWorld : Nat → HostWorld) (port : GoString)
    (config : Option ClientConfig) : List Host → Nat → List Event → Run Nat
  | [], _, tr => .done tr 0
  | host :: rest, i, tr =>
    match processHost fuel (hostWorld i) host port config with
    | .pending t => .pending (tr ++ t)
    | .done t (some err) => .done (tr ++ t ++ [.print (err ++ "\n".toList)]) 1
    | .done t none => mainLoop fuel hostWorld port config rest (i + 1) (tr ++ t ++ [.sleep 5])

/-- The Go function `main` after `flag.Parse()`; the value is the exit code of
the process. -/
def main (fuel : Nat) (w : World) (flags : Flags) : Run Nat :=
  if flags.hosts = [] then
    .done [.print "No file name passed\n".toList] 2
  else
    match getHosts w.readFile flags.hosts with
    | (_, some err) => .done [.readFile flags.hosts, .print (err ++ "\n".toList)] 1
    | (hosts, none) =>
      match getSSHConfig w flags.key flags.passphrase flags.user with
      | (_, some err) =>
        .done [.readFile flags.hosts, .readFile flags.key, .print (err ++ "\n".toList)] 1
      | (config, none) =>
        mainLoop fuel w.host flags.port config (hosts.getD []) 0
          [.readFile flags.hosts, .readFile flags.key]

/-! ## Vocabulary of the specification -/

/-- The word that marks a workload-bearing host. -/
def workloadMarker : GoString := "workload".toList

/-- The non-blank lines of a file, each trimmed, in file order. -/
def nonBlankLines (fileStr : GoString) : List GoString :=
  ((Split fileStr '\n').map TrimSpace).filter (fun t => t ≠ [])

/-- The first token of a line: what stands before its first space. -/
def firstToken (t : GoString) : GoString :=
  t.takeWhile (fun c => c ≠ ' ')

/-- A well-formed trimmed line: one space-free token, or a space-free token,
one space and the marker word. -/
def WellFormedLine (t : GoString) : Prop :=
  ' ' ∉ t ∨ ∃ h : GoString, ' ' ∉ h ∧ t = h ++ ' ' :: workloadMarker

/-- A malformed trimmed line: three or more tokens, or two tokens whose second
is not the marker word. -/
def MalformedLine (t : GoString) : Prop :=
  3 ≤ (Split t ' ').length ∨ ((Split t ' ').length = 2 ∧ (Split t ' ').getD 1 [] ≠ workloadMarker)

/-- The addresses of the remote-shell connections attempted in a trace. -/
def dialAttempts (tr : List Event) : List GoString :=
  tr.filterMap (fun e => match e with
    | .sshDial a _ => some a
    | _ => none)

/-- The number of reachability probes in a trace. -/
def probeCount (tr : List Event) : Nat :=
  tr.countP (fun e => match e with
    | .dialTimeout _ _ => true
    | _ => false)

/-- The entry `getHosts` appends for an accepted trimmed line. -/
def lineEntry (t : GoString) : Host :=
  { hostname := (Split t ' ').getD 0 [], workload := (Split t ' ').length != 1 }

/-- The trimmed lines `getHosts` accepts: one token, or two tokens of which the
second is the marker word. -/
def LineOk (t : GoString) : Prop :=
  (Split t ' ').length = 1 ∨ ((Split t ' ').length = 2 ∧ (Split t ' ').getD 1 [] = workloadMarker)

instance (t : GoString) : Decidable (LineOk t) := by
  unfold LineOk; infer_instance

/-- The error `getHosts` returns for a line it cannot parse. -/
def parseError (t : GoString) : GoString :=
  "Can't parse hostname: ".toList ++ t ++ "\n".toList

/-- Host `i` of the list is processed with success: `processHost` returns nil. -/
def HostSucceeds (fuel : Nat) (w : World) (port : GoString) (config : Option ClientConfig)
    (hosts : List Host) (i : Nat) : Prop :=
  ∃ h tr, hosts[i]? = some h ∧ processHost fuel (w.host i) h port config = .done tr none

/-- The processing of host `i` of the list fails: `processHost` returns an error. -/
def HostFails (fuel : Nat) (w : World) (port : GoString) (config : Option ClientConfig)
    (hosts : List Host) (i : Nat) : Prop :=
  ∃ h tr err, hosts[i]? = some h ∧
    processHost fuel (w.host i) h port config = .done tr (some err)

/-- A sample command line. -/
def demoFlags : Flags :=
  { user := "root".toList, key := "/root/.ssh/id_rsa".toList, passphrase := [],
    port := "22".toList, hosts := "hosts.txt".toList }

/-- A sample host list, the parse of the file of `demoWorld`. -/
def demoHosts : List Host :=
  [{ hostname := "a.example".toList, workload := false },
   { hostname := "b.example".toList, workload := true },
   { hostname := "c.example".toList, workload := false }]

/-- A sample configuration, the one `getSSHConfig` builds in `demoWorld`. -/
def demoConfig : ClientConfig :=
  { User := "root".toList, Auth := [{ id := 1 }], insecureIgnoreHostKey := true, Timeout := 10 }

/-- A sample world: three hosts in the file, a key that parses; the reboot
command of the second host fails with a connection error, every other host
loses the connection without exit status, refuses one probe and accepts the
next. -/
def demoWorld : World :=
  { readFile := fun name =>
      if name = "hosts.txt".toList then
        some "a.example\nb.example workload\nc.example\n".toList
      else some "KEY".toList
    parsePrivateKey := fun _ => some { id := 1 }
    parsePrivateKeyWithPassphrase := fun _ _ => none
    host := fun i =>
      if i = 1 then
        { dial := none, newSession := none, run := .otherError "connection lost".toList,
          probe := fun _ => none }
      else
        { dial := none, newSession := none, run := .exitMissing,
          probe := fun j => if j < 1 then some "connection refused".toList else none } }

/-- A sample world: two hosts in the file, a key that parses, every command
accepted and every probe accepted at once. -/
def calmWorld : World :=
  { readFile := fun name =>
      if name = "hosts.txt".toList then some "a.example\nb.example workload\n".toList
      else some "KEY".toList
    parsePrivateKey := fun _ => some { id := 1 }
    parsePrivateKeyWithPassphrase := fun _ _ => none
    host := fun _ =>
      { dial := none, newSession := none, run := .success, probe := fun _ => none } }

/-- The effects of one refused probe of `waitForHost`: the probe, the message
with the error of the `i`-th probe, the one-second wait. -/
def refusedProbe (probe : Nat → Option GoString) (address host : GoString) (i : Nat) :
    List Event :=
  [.dialTimeout address 2,
   .print ("Host ".toList ++ host ++ " is not reachable yet: ".toList ++ (probe i).getD [] ++
     "\n".toList),
   .sleep 1]

/-- The number of probe connections closed in a trace. -/
def closeCount (tr : List Event) : Nat :=
  tr.count .connClose

/-- The number of one-second waits in a trace. -/
def waitCount (tr : List Event) : Nat :=
  tr.count (.sleep 1)

/-! ## Lemmas on `Split` and `TrimSpace` -/

theorem Split_ne_nil (s : GoString) (sep : Char) : Split s sep ≠ [] := by
  cases s with
  | nil => simp [Split]
  | cons c cs =>
    unfold Split
    split_ifs
    · simp
    · split <;> simp

theorem Split_length_pos (s : GoString) (sep : Char) : 1 ≤ (Split s sep).length := by
  have h := Split_ne_nil s sep
  cases hs : Split s sep with
  | nil => exact absurd hs h
  | cons a l => simp

theorem Split_of_not_mem (s : GoString) (sep : Char) (h : sep ∉ s) : Split s sep = [s] := by
  induction s with
  | nil => simp [Split]
  | cons c cs ih =>
    have hc : c ≠ sep := fun e => h (by simp [e])
    have hcs : sep ∉ cs := fun e => h (by simp [e])
    unfold Split
    rw [if_neg hc, ih hcs]

theorem Split_append_sep (a b : GoString) (sep : Char) (h : sep ∉ a) :
    Split (a ++ sep :: b) sep = a :: Split b sep := by
  induction a with
  | nil =>
    show Split (sep :: b) sep = _
    rw [Split, if_pos rfl]
  | cons c cs ih =>
    have hc : c ≠ sep := fun e => h (by simp [e])
    have hcs : sep ∉ cs := fun e => h (by simp [e])
    show Split (c :: (cs ++ sep :: b)) sep = _
    rw [Split, if_neg hc, ih hcs]

/-- A string is its first piece, or its first piece, a separator and the rest;
the pieces after the first are the pieces of the rest. -/
theorem Split_decompose (s : GoString) (sep : Char) :
    (sep ∉ s ∧ Split s sep = [s]) ∨
    ∃ a b, sep ∉ a ∧ s = a ++ sep :: b ∧ Split s sep = a :: Split b sep := by
  induction s with
  | nil => left; simp [Split]
  | cons c cs ih =>
    by_cases hc : c = sep
    · right
      refine ⟨[], cs, by simp, by simp [hc], ?_⟩
      rw [Split, if_pos hc]
    · rcases ih with ⟨hn, _⟩ | ⟨a, b, ha, hs, _⟩
      · left
        have : sep ∉ c :: cs := by
          simp only [List.mem_cons, not_or]
          exact ⟨fun e => hc e.symm, hn⟩
        exact ⟨this, Split_of_not_mem _ _ this⟩
      · right
        have hca : sep ∉ c :: a := by
          simp only [List.mem_cons, not_or]
          exact ⟨fun e => hc e.symm, ha⟩
        refine ⟨c :: a, b, hca, by simp [hs], ?_⟩
        have : c :: cs = (c :: a) ++ sep :: b := by simp [hs]
        rw [this, Split_append_sep _ _ _ hca]

theorem Split_length_one (s : GoString) (sep : Char) (h : (Split s sep).length = 1) :
    sep ∉ s ∧ Split s sep = [s] := by
  rcases Split_decompose s sep with h1 | ⟨a, b, _, _, hsp⟩
  · exact h1
  · rw [hsp] at h
    have := Split_length_pos b sep
    rw [List.length_cons] at h
    omega

theorem Split_length_two (s : GoString) (sep : Char) (h : (Split s sep).length = 2) :
    ∃ a b, sep ∉ a ∧ sep ∉ b ∧ s = a ++ sep :: b ∧ Split s sep = [a, b] := by
  rcases Split_decompose s sep with ⟨_, h1⟩ | ⟨a, b, ha, hs, hsp⟩
  · rw [h1] at h; simp at h
  · rw [hsp] at h
    have hb : (Split b sep).length = 1 := by simpa using h
    obtain ⟨hb1, hb2⟩ := Split_length_one b sep hb
    exact ⟨a, b, ha, hb1, hs, by rw [hsp, hb2]⟩

theorem Split_head (s : GoString) (sep : Char) :
    (Split s sep).getD 0 [] = s.takeWhile (fun c => c ≠ sep) := by
  rcases Split_decompose s sep with ⟨hn, h1⟩ | ⟨a, b, ha, hs, hsp⟩
  · rw [h1]
    have : s.takeWhile (fun c => c ≠ sep) = s := by
      rw [List.takeWhile_eq_self_iff]
      intro c hc
      simp only [ne_eq, decide_not, Bool.not_eq_eq_eq_not, Bool.not_true, decide_eq_false_iff_not]
      rintro rfl
      exact hn hc
    rw [this]; rfl
  · rw [hsp]
    have : s.takeWhile (fun c => c ≠ sep) = a := by
      rw [hs, List.takeWhile_append_of_pos]
      · simp
      · intro c hc
        simp only [ne_eq, decide_not, Bool.not_eq_eq_eq_not, Bool.not_true,
          decide_eq_false_iff_not]
        rintro rfl
        exact ha hc
    rw [this]; rfl

theorem TrimSpace_head_not_space (s : GoString) (c : Char) (cs : GoString)
    (h : TrimSpace s = c :: cs) : isSpace c = false := by
  unfold TrimSpace at h
  have hpre : (((s.dropWhile isSpace).reverse).dropWhile isSpace).reverse <+: s.dropWhile isSpace := by
    have := List.dropWhile_suffix (l := (s.dropWhile isSpace).reverse) isSpace
    have h2 := List.reverse_prefix.mpr this
    simpa using h2
  rw [h] at hpre
  obtain ⟨r, hr⟩ := hpre
  cases hd : s.dropWhile isSpace with
  | nil => rw [hd] at hr; simp at hr
  | cons d ds =>
    rw [hd] at hr
    have hcd : c = d := by
      simp at hr
      exact hr.1
    have hne : s.dropWhile isSpace ≠ [] := by rw [hd]; simp
    have := List.head_dropWhile_not isSpace s hne
    simp [hd] at this
    rw [hcd]; exact this

theorem TrimSpace_eq_self (s : GoString) (c d : Char) (cs ds : GoString)
    (hs : s = c :: cs) (hc : isSpace c = false)
    (hr : s.reverse = d :: ds) (hd : isSpace d = false) : TrimSpace s = s := by
  unfold TrimSpace
  have h1 : s.dropWhile isSpace = s := by
    rw [hs, List.dropWhile_cons_of_neg (by simp [hc])]
  rw [h1]
  have h2 : s.reverse.dropWhile isSpace = s.reverse := by
    rw [hr, List.dropWhile_cons_of_neg (by simp [hd])]
  rw [h2, List.reverse_reverse]

theorem TrimSpace_of_no_space (h : GoString) (hne : h ≠ [])
    (hns : ∀ c ∈ h, isSpace c = false) : TrimSpace h = h := by
  cases hh : h with
  | nil => exact absurd hh hne
  | cons c cs =>
    cases hr : (c :: cs).reverse with
    | nil => simp at hr
    | cons d ds =>
      have hd : d ∈ h := by
        have : d ∈ (c :: cs).reverse := by rw [hr]; simp
        rw [hh]; exact List.mem_reverse.mp this
      exact TrimSpace_eq_self (c :: cs) c d cs ds rfl (hns c (by simp [hh])) hr (hns d hd)

theorem TrimSpace_nil : TrimSpace [] = [] := by decide

/-! ## Lemmas on the loop of `getHosts` -/

theorem lineEntry_of_one (t : GoString) (h : (Split t ' ').length = 1) :
    lineEntry t = { hostname := (Split t ' ').getD 0 [], workload := false } := by
  simp [lineEntry, h]

theorem lineEntry_of_two (t : GoString) (h : (Split t ' ').length = 2) :
    lineEntry t = { hostname := (Split t ' ').getD 0 [], workload := true } := by
  simp [lineEntry, h]

theorem getHostsLoop_cons (line : GoString) (rest : List GoString) (acc : List Host) :
    getHostsLoop (line :: rest) acc =
      if TrimSpace line = [] then getHostsLoop rest acc
      else if LineOk (TrimSpace line) then getHostsLoop rest (acc ++ [lineEntry (TrimSpace line)])
      else (none, some (parseError (TrimSpace line))) := by
  rw [getHostsLoop]
  by_cases h0 : TrimSpace line = []
  · simp [h0]
  · by_cases h1 : (Split (TrimSpace line) ' ').length = 1
    · have hok : LineOk (TrimSpace line) := Or.inl h1
      rw [if_neg h0, if_pos h1, if_neg h0, if_pos hok, lineEntry_of_one _ h1]
    · by_cases h2 : (Split (TrimSpace line) ' ').length = 2 ∧
          (Split (TrimSpace line) ' ').getD 1 [] = workloadMarker
      · have hok : LineOk (TrimSpace line) := Or.inr h2
        have h2' : (Split (TrimSpace line) ' ').length = 2 ∧
          (Split (TrimSpace line) ' ').getD 1 [] = "workload".toList := h2
        rw [if_neg h0, if_neg h1, if_pos h2', if_neg h0, if_pos hok, lineEntry_of_two _ h2.1]
      · have hok : ¬ LineOk (TrimSpace line) := fun h => h.elim h1 h2
        have h2' : ¬ ((Split (TrimSpace line) ' ').length = 2 ∧
          (Split (TrimSpace line) ' ').getD 1 [] = "workload".toList) := h2
        rw [if_neg h0, if_neg h1, if_neg h2', if_neg h0, if_neg hok]
        rfl

/-- The trimmed non-blank lines among `lines`. -/
theorem nonBlankLines_eq (fileStr : GoString) :
    nonBlankLines fileStr = ((Split fileStr '\n').map TrimSpace).filter (fun t => t ≠ []) := rfl

theorem getHostsLoop_ok (lines : List GoString) (acc : List Host)
    (h : ∀ t ∈ (lines.map TrimSpace).filter (fun t => t ≠ []), LineOk t) :
    getHostsLoop lines acc =
      (some (acc ++ ((lines.map TrimSpace).filter (fun t => t ≠ [])).map lineEntry), none) := by
  induction lines generalizing acc with
  | nil => simp [getHostsLoop]
  | cons line rest ih =>
    rw [getHostsLoop_cons]
    by_cases h0 : TrimSpace line = []
    · rw [if_pos h0]
      have hrest : ∀ t ∈ (rest.map TrimSpace).filter (fun t => t ≠ []), LineOk t := by
        intro t ht
        apply h
        simpa [h0] using ht
      rw [ih acc hrest]
      simp [h0]
    · rw [if_neg h0]
      have hok : LineOk (TrimSpace line) := by
        apply h
        simp [h0]
      have hrest : ∀ t ∈ (rest.map TrimSpace).filter (fun t => t ≠ []), LineOk t := by
        intro t ht
        apply h
        simp only [List.map_cons, ne_eq, decide_not]
        rw [List.filter_cons_of_pos (by simpa using h0)]
        exact List.mem_cons_of_mem _ (by simpa using ht)
      rw [if_pos hok, ih _ hrest]
      simp [h0]

theorem getHostsLoop_err (lines : List GoString) (acc : List Host)
    (h : ∃ t ∈ (lines.map TrimSpace).filter (fun t => t ≠ []), ¬ LineOk t) :
    ∃ t ∈ (lines.map TrimSpace).filter (fun t => t ≠ []),
      ¬ LineOk t ∧ getHostsLoop lines acc = (none, some (parseError t)) := by
  induction lines generalizing acc with
  | nil => simp at h
  | cons line rest ih =>
    rw [getHostsLoop_cons]
    by_cases h0 : TrimSpace line = []
    · rw [if_pos h0]
      have hrest : ∃ t ∈ (rest.map TrimSpace).filter (fun t => t ≠ []), ¬ LineOk t := by
        obtain ⟨t, ht, hbad⟩ := h
        exact ⟨t, by simpa [h0] using ht, hbad⟩
      obtain ⟨t, ht, hbad, heq⟩ := ih acc hrest
      exact ⟨t, by simpa [h0] using ht, hbad, heq⟩
    · rw [if_neg h0]
      by_cases hok : LineOk (TrimSpace line)
      · rw [if_pos hok]
        have hrest : ∃ t ∈ (rest.map TrimSpace).filter (fun t => t ≠ []), ¬ LineOk t := by
          obtain ⟨t, ht, hbad⟩ := h
          simp only [List.map_cons, ne_eq, decide_not] at ht
          rw [List.filter_cons_of_pos (by simpa using h0)] at ht
          rcases List.mem_cons.mp ht with rfl | ht
          · exact absurd hok hbad
          · exact ⟨t, by simpa using ht, hbad⟩
        obtain ⟨t, ht, hbad, heq⟩ := ih _ hrest
        refine ⟨t, ?_, hbad, heq⟩
        simp only [List.map_cons, ne_eq, decide_not]
        rw [List.filter_cons_of_pos (by simpa using h0)]
        exact List.mem_cons_of_mem _ (by simpa using ht)
      · rw [if_neg hok]
        refine ⟨TrimSpace line, ?_, hok, rfl⟩
        simp [h0]

theorem malformed_iff_not_ok (t : GoString) : MalformedLine t ↔ ¬ LineOk t := by
  have hpos := Split_length_pos t ' '
  unfold MalformedLine LineOk
  constructor
  · rintro (h | ⟨h2, hne⟩) hok
    · rcases hok with h1 | ⟨h2, _⟩ <;> omega
    · rcases hok with h1 | ⟨_, he⟩
      · omega
      · exact hne he
  · intro hnot
    by_cases h3 : 3 ≤ (Split t ' ').length
    · exact Or.inl h3
    · right
      have h1 : (Split t ' ').length ≠ 1 := fun h => hnot (Or.inl h)
      have h2 : (Split t ' ').length = 2 := by omega
      exact ⟨h2, fun he => hnot (Or.inr ⟨h2, he⟩)⟩

theorem wellFormed_ok (t : GoString) (h : WellFormedLine t) :
    LineOk t ∧ (lineEntry t).hostname = firstToken t := by
  refine ⟨?_, Split_head t ' '⟩
  rcases h with h | ⟨a, ha, rfl⟩
  · left; rw [Split_of_not_mem _ _ h]; rfl
  · right
    rw [Split_append_sep _ _ _ ha]
    have : Split workloadMarker ' ' = [workloadMarker] := by decide
    rw [this]
    exact ⟨rfl, rfl⟩

/-- Every non-blank trimmed line starts with a character that is not white
space, so its first token is not empty. -/
theorem nonBlank_firstToken_ne_nil (fileStr t : GoString) (ht : t ∈ nonBlankLines fileStr) :
    firstToken t ≠ [] := by
  rw [nonBlankLines_eq, List.mem_filter, List.mem_map] at ht
  obtain ⟨⟨l, _, hl⟩, hne⟩ := ht
  cases htt : t with
  | nil => simp [htt] at hne
  | cons c cs =>
    have hc := TrimSpace_head_not_space l c cs (by rw [hl, htt])
    have hcs : c ≠ ' ' := by
      rintro rfl
      exact absurd hc (by decide)
    simp [firstToken, List.takeWhile_cons, hcs]

theorem getHosts_readable (readFile : GoString → Option GoString) (fileName fileStr : GoString)
    (hread : readFile fileName = some fileStr) :
    getHosts readFile fileName = getHostsLoop (Split fileStr '\n') [] := by
  simp [getHosts, hread]

/-! ## Host-list parsing -/

/-- C1: when every non-blank line of a readable file, trimmed, is one
space-free token or a space-free token, one space and the word "workload",
`getHosts` returns no error and a list with one entry per non-blank line, in
file order, the hostname of each entry being the first token of its line. -/
theorem getHosts_wellFormed (readFile : GoString → Option GoString)
    (fileName fileStr : GoString) (hread : readFile fileName = some fileStr)
    (hwf : ∀ t ∈ nonBlankLines fileStr, WellFormedLine t) :
    ∃ hosts, getHosts readFile fileName = (some hosts, none) ∧
      hosts.length = (nonBlankLines fileStr).length ∧
      hosts.map Host.hostname = (nonBlankLines fileStr).map firstToken := by
  have hok : ∀ t ∈ ((Split fileStr '\n').map TrimSpace).filter (fun t => t ≠ []), LineOk t :=
    fun t ht => (wellFormed_ok t (hwf t ht)).1
  refine ⟨(nonBlankLines fileStr).map lineEntry, ?_, by simp, ?_⟩
  · rw [getHosts_readable _ _ _ hread, getHostsLoop_ok _ _ hok]
    simp [nonBlankLines_eq]
  · rw [List.map_map]
    apply List.map_congr_left
    intro t ht
    exact (wellFormed_ok t (hwf t ht)).2

/-- C1 at the file `a.example`, blank line, `  b.example workload ` with a
carriage return, blank line. -/
theorem getHosts_wellFormed_witness :
    ∃ hosts, getHosts (fun _ => some "a.example\n\n  b.example workload \r\n \t\n".toList)
        "hosts.txt".toList = (some hosts, none) ∧
      hosts.length
        = (nonBlankLines "a.example\n\n  b.example workload \r\n \t\n".toList).length ∧
      hosts.map Host.hostname
        = (nonBlankLines "a.example\n\n  b.example workload \r\n \t\n".toList).map firstToken :=
  getHosts_wellFormed (fun _ => some "a.example\n\n  b.example workload \r\n \t\n".toList)
    "hosts.txt".toList "a.example\n\n  b.example workload \r\n \t\n".toList rfl (by
      have hl : nonBlankLines "a.example\n\n  b.example workload \r\n \t\n".toList
          = ["a.example".toList, "b.example workload".toList] := by decide
      intro t ht
      rw [hl] at ht
      rcases List.mem_cons.mp ht with rfl | ht
      · exact Or.inl (by decide)
      · rcases List.mem_cons.mp ht with rfl | ht
        · exact Or.inr ⟨"b.example".toList, by decide, by decide⟩
        · simp at ht)

/-- C2: for a non-empty hostname without white space, the file made of that
one line (with or without a final newline) parses to the single entry with
workload false, and the file made of the hostname, one space and "workload"
parses to the single entry with workload true. -/
theorem getHosts_single_line (fileName h : GoString) (hne : h ≠ [])
    (hns : ∀ c ∈ h, isSpace c = false) :
    getHosts (fun _ => some h) fileName = (some [{ hostname := h, workload := false }], none) ∧
    getHosts (fun _ => some (h ++ "\n".toList)) fileName
      = (some [{ hostname := h, workload := false }], none) ∧
    getHosts (fun _ => some (h ++ " workload".toList)) fileName
      = (some [{ hostname := h, workload := true }], none) ∧
    getHosts (fun _ => some (h ++ " workload\n".toList)) fileName
      = (some [{ hostname := h, workload := true }], none) := by
  have hnl : '\n' ∉ h := fun hm => absurd (hns _ hm) (by decide)
  have hsp : ' ' ∉ h := fun hm => absurd (hns _ hm) (by decide)
  have ht1 : TrimSpace h = h := TrimSpace_of_no_space h hne hns
  obtain ⟨c, cs, hcs⟩ : ∃ c cs, h = c :: cs := by
    cases h with
    | nil => exact absurd rfl hne
    | cons c cs => exact ⟨c, cs, rfl⟩
  have hc : isSpace c = false := hns c (by simp [hcs])
  have ht2 : TrimSpace (h ++ " workload".toList) = h ++ " workload".toList :=
    TrimSpace_eq_self _ c 'd' (cs ++ " workload".toList) ("aolkrow ".toList ++ h.reverse)
      (by simp [hcs]) hc (by simp) (by decide)
  have hnlw : '\n' ∉ h ++ " workload".toList := by
    intro hm
    rcases List.mem_append.mp hm with hm | hm
    · exact hnl hm
    · exact absurd hm (by decide)
  have he1 : lineEntry h = { hostname := h, workload := false } := by
    simp [lineEntry, Split_of_not_mem _ _ hsp]
  have hs2 : Split (h ++ " workload".toList) ' ' = [h, workloadMarker] := by
    have : h ++ " workload".toList = h ++ ' ' :: workloadMarker := rfl
    rw [this, Split_append_sep _ _ _ hsp]
    have : Split workloadMarker ' ' = [workloadMarker] := by decide
    rw [this]
  have he2 : lineEntry (h ++ " workload".toList) = { hostname := h, workload := true } := by
    unfold lineEntry
    rw [hs2]
    rfl
  have hok1 : LineOk h := Or.inl (by rw [Split_of_not_mem _ _ hsp]; rfl)
  have hok2 : LineOk (h ++ " workload".toList) := Or.inr (by rw [hs2]; exact ⟨rfl, rfl⟩)
  have hne2 : h ++ " workload".toList ≠ [] := by simp [hcs]
  refine ⟨?_, ?_, ?_, ?_⟩
  · rw [getHosts_readable (fun _ => some h) fileName h rfl, Split_of_not_mem _ _ hnl, getHostsLoop_cons, ht1,
      if_neg hne, if_pos hok1, he1]
    rfl
  · rw [getHosts_readable (fun _ => some (h ++ "\n".toList)) fileName (h ++ "\n".toList) rfl]
    have : h ++ "\n".toList = h ++ '\n' :: [] := rfl
    rw [this, Split_append_sep _ _ _ hnl]
    have : Split [] '\n' = [[]] := by decide
    rw [this, getHostsLoop_cons, ht1, if_neg hne, if_pos hok1, he1, getHostsLoop_cons,
      TrimSpace_nil, if_pos rfl]
    rfl
  · rw [getHosts_readable (fun _ => some (h ++ " workload".toList)) fileName (h ++ " workload".toList) rfl, Split_of_not_mem _ _ hnlw,
      getHostsLoop_cons, ht2, if_neg hne2, if_pos hok2, he2]
    rfl
  · rw [getHosts_readable (fun _ => some (h ++ " workload\n".toList)) fileName (h ++ " workload\n".toList) rfl]
    have : h ++ " workload\n".toList = (h ++ " workload".toList) ++ '\n' :: [] := by
      simp
    rw [this, Split_append_sep _ _ _ hnlw]
    have : Split [] '\n' = [[]] := by decide
    rw [this, getHostsLoop_cons, ht2, if_neg hne2, if_pos hok2, he2, getHostsLoop_cons,
      TrimSpace_nil, if_pos rfl]
    rfl

/-- C2 at the hostname `db-1.example`. -/
theorem getHosts_single_line_witness :
    getHosts (fun _ => some "db-1.example".toList) "hosts.txt".toList
      = (some [{ hostname := "db-1.example".toList, workload := false }], none) ∧
    getHosts (fun _ => some ("db-1.example".toList ++ "\n".toList)) "hosts.txt".toList
      = (some [{ hostname := "db-1.example".toList, workload := false }], none) ∧
    getHosts (fun _ => some ("db-1.example".toList ++ " workload".toList)) "hosts.txt".toList
      = (some [{ hostname := "db-1.example".toList, workload := true }], none) ∧
    getHosts (fun _ => some ("db-1.example".toList ++ " workload\n".toList)) "hosts.txt".toList
      = (some [{ hostname := "db-1.example".toList, workload := true }], none) :=
  getHosts_single_line "hosts.txt".toList "db-1.example".toList (by decide) (by decide)

/-- C3: for a readable file, if some non-blank trimmed line has three or more
tokens, or two tokens of which the second is not "workload", `getHosts`
returns a nil list and the parse error of such a line; and it returns an error
only if there is such a line. -/
theorem getHosts_error_iff (readFile : GoString → Option GoString)
    (fileName fileStr : GoString) (hread : readFile fileName = some fileStr) :
    ((∃ t ∈ nonBlankLines fileStr, MalformedLine t) →
      (getHosts readFile fileName).1 = none ∧
      ∃ t ∈ nonBlankLines fileStr, MalformedLine t ∧
        (getHosts readFile fileName).2 = some (parseError t)) ∧
    ((getHosts readFile fileName).2 ≠ none → ∃ t ∈ nonBlankLines fileStr, MalformedLine t) := by
  rw [getHosts_readable _ _ _ hread]
  constructor
  · rintro ⟨t, ht, hbad⟩
    obtain ⟨u, hu, hubad, heq⟩ := getHostsLoop_err (Split fileStr '\n') []
      ⟨t, ht, (malformed_iff_not_ok t).mp hbad⟩
    rw [heq]
    exact ⟨rfl, u, hu, (malformed_iff_not_ok u).mpr hubad, rfl⟩
  · intro herr
    by_contra hno
    have hok : ∀ t ∈ ((Split fileStr '\n').map TrimSpace).filter (fun t => t ≠ []), LineOk t := by
      intro t ht
      by_contra hbad
      exact hno ⟨t, ht, (malformed_iff_not_ok t).mpr hbad⟩
    rw [getHostsLoop_ok _ _ hok] at herr
    exact herr rfl

/-- C3 at a file whose second line has a doubled space (three tokens): the
list is nil and the error is the parse error of a malformed line, although the
first line is well-formed. -/
theorem getHosts_error_iff_witness :
    (getHosts (fun _ => some "a.example\nb.example  workload\n".toList) "h".toList).1 = none ∧
    ∃ t ∈ nonBlankLines "a.example\nb.example  workload\n".toList, MalformedLine t ∧
      (getHosts (fun _ => some "a.example\nb.example  workload\n".toList) "h".toList).2
        = some (parseError t) :=
  (getHosts_error_iff (fun _ => some "a.example\nb.example  workload\n".toList) "h".toList
    "a.example\nb.example  workload\n".toList rfl).1
    ⟨"b.example  workload".toList, by decide, Or.inl (by decide)⟩

/-- C9: when `getHosts` returns no error on a readable file, it returns one
entry per non-blank line, each with a non-empty hostname; an entry with
workload true comes from a line whose tokens are the hostname and "workload",
an entry with workload false from a line whose only token is the hostname. -/
theorem getHosts_entries_invariant (readFile : GoString → Option GoString)
    (fileName fileStr : GoString) (hread : readFile fileName = some fileStr)
    (hok : (getHosts readFile fileName).2 = none) :
    ∃ hosts, (getHosts readFile fileName).1 = some hosts ∧
      hosts.length = (nonBlankLines fileStr).length ∧
      ∀ (i : Nat) (h : Host) (t : GoString), hosts[i]? = some h → (nonBlankLines fileStr)[i]? = some t →
        h.hostname ≠ [] ∧
        (h.workload = true → Split t ' ' = [h.hostname, workloadMarker]) ∧
        (h.workload = false → Split t ' ' = [h.hostname]) := by
  have hall : ∀ t ∈ ((Split fileStr '\n').map TrimSpace).filter (fun t => t ≠ []), LineOk t := by
    intro t ht
    by_contra hbad
    obtain ⟨u, _, _, heq⟩ := getHostsLoop_err (Split fileStr '\n') [] ⟨t, ht, hbad⟩
    rw [getHosts_readable _ _ _ hread, heq] at hok
    simp at hok
  refine ⟨(nonBlankLines fileStr).map lineEntry, ?_, by simp, ?_⟩
  · rw [getHosts_readable _ _ _ hread, getHostsLoop_ok _ _ hall]
    simp [nonBlankLines_eq]
  · intro i h t hi hti
    rw [List.getElem?_map, hti] at hi
    have hh : h = lineEntry t := by simpa using hi.symm
    have hmem : t ∈ nonBlankLines fileStr := List.getElem?_mem hti
    have hne : (lineEntry t).hostname ≠ [] := by
      show (Split t ' ').getD 0 [] ≠ []
      rw [Split_head]
      exact nonBlank_firstToken_ne_nil fileStr t hmem
    subst hh
    refine ⟨hne, ?_, ?_⟩
    · intro hw
      rcases hall t hmem with h1 | ⟨h2, hm⟩
      · simp [lineEntry, h1] at hw
      · obtain ⟨a, b, _, _, _, hab⟩ := Split_length_two t ' ' h2
        rw [hab] at hm ⊢
        have hb : b = workloadMarker := by simpa using hm
        simp [lineEntry, hab, hb]
    · intro hw
      rcases hall t hmem with h1 | ⟨h2, _⟩
      · obtain ⟨_, h1'⟩ := Split_length_one t ' ' h1
        simp [lineEntry, h1']
      · simp [lineEntry, h2] at hw

/-- C9 at the file `a.example`, `b.example workload`. -/
theorem getHosts_entries_invariant_witness :
    ∃ hosts, (getHosts (fun _ => some "a.example\nb.example workload\n".toList)
        "h".toList).1 = some hosts ∧
      hosts.length = (nonBlankLines "a.example\nb.example workload\n".toList).length ∧
      ∀ (i : Nat) (h : Host) (t : GoString), hosts[i]? = some h →
        (nonBlankLines "a.example\nb.example workload\n".toList)[i]? = some t →
        h.hostname ≠ [] ∧
        (h.workload = true → Split t ' ' = [h.hostname, workloadMarker]) ∧
        (h.workload = false → Split t ' ' = [h.hostname]) :=
  getHosts_entries_invariant (fun _ => some "a.example\nb.example workload\n".toList)
    "h".toList "a.example\nb.example workload\n".toList rfl (by decide)

/-! ## Reachability polling -/

theorem waitForHostLoop_refused (probe : Nat → Option GoString) (address host : GoString)
    (n m i : Nat) (tr : List Event) (href : ∀ j, i ≤ j → j < i + n → probe j ≠ none) :
    waitForHostLoop probe address host (n + m) i tr =
      waitForHostLoop probe address host m (i + n)
        (tr ++ (List.range' i n).flatMap (refusedProbe probe address host)) := by
  induction n generalizing i tr with
  | zero => simp
  | succ n ih =>
    have hi : probe i ≠ none := href i (le_refl _) (by omega)
    obtain ⟨err, herr⟩ := Option.ne_none_iff_exists'.mp hi
    have hstep : n + 1 + m = (n + m) + 1 := by omega
    rw [hstep, waitForHostLoop]
    simp only [herr]
    rw [ih (i + 1) _ (fun j h1 h2 => href j (by omega) (by omega))]
    have hidx : i + 1 + n = i + (n + 1) := by omega
    rw [hidx, List.range'_succ, List.flatMap_cons, List.append_assoc]
    simp [refusedProbe, herr]

theorem probeCount_refused (probe : Nat → Option GoString) (address host : GoString)
    (i n : Nat) :
    probeCount ((List.range' i n).flatMap (refusedProbe probe address host)) = n := by
  induction n generalizing i with
  | zero => simp [probeCount]
  | succ n ih =>
    rw [List.range'_succ, List.flatMap_cons]
    unfold probeCount at ih ⊢
    rw [List.countP_append, ih (i + 1)]
    simp [refusedProbe, List.countP_cons]
    omega

theorem closeCount_refused (probe : Nat → Option GoString) (address host : GoString)
    (i n : Nat) :
    closeCount ((List.range' i n).flatMap (refusedProbe probe address host)) = 0 := by
  induction n generalizing i with
  | zero => simp [closeCount]
  | succ n ih =>
    rw [List.range'_succ, List.flatMap_cons]
    unfold closeCount at ih ⊢
    rw [List.count_append, ih (i + 1)]
    simp [refusedProbe, List.count_cons]

theorem waitCount_refused (probe : Nat → Option GoString) (address host : GoString)
    (i n : Nat) :
    waitCount ((List.range' i n).flatMap (refusedProbe probe address host)) = n := by
  induction n generalizing i with
  | zero => simp [waitCount]
  | succ n ih =>
    rw [List.range'_succ, List.flatMap_cons]
    unfold waitCount at ih ⊢
    rw [List.count_append, ih (i + 1)]
    simp [refusedProbe, List.count_cons]
    omega

theorem waitForHost_accept_eq (probe : Nat → Option GoString) (host port : GoString)
    (k fuel : Nat) (href : ∀ j, j < k → probe j ≠ none) (hacc : probe k = none)
    (hfuel : k < fuel) :
    waitForHost fuel probe host port =
      .done ((List.range k).flatMap (refusedProbe probe (JoinHostPort host port) host) ++
        [.dialTimeout (JoinHostPort host port) 2, .connClose,
         .print ("Host ".toList ++ host ++ " is back online\n".toList)]) none := by
  obtain ⟨m, rfl⟩ : ∃ m, fuel = k + (m + 1) := ⟨fuel - k - 1, by omega⟩
  unfold waitForHost
  simp only []
  rw [waitForHostLoop_refused probe _ host k (m + 1) 0 [] (fun j _ h2 => href j (by omega))]
  rw [waitForHostLoop]
  simp only [Nat.zero_add, hacc, List.nil_append, List.range_eq_range']
  simp

theorem waitForHost_refused_eq (probe : Nat → Option GoString) (host port : GoString)
    (hall : ∀ i, probe i ≠ none) (n : Nat) :
    waitForHost n probe host port =
      .pending ((List.range n).flatMap (refusedProbe probe (JoinHostPort host port) host)) := by
  unfold waitForHost
  simp only []
  have := waitForHostLoop_refused probe (JoinHostPort host port) host n 0 0 []
    (fun j _ _ => hall j)
  rw [Nat.add_zero] at this
  rw [this, waitForHostLoop]
  simp [List.range_eq_range']

theorem probeCount_accept (probe : Nat → Option GoString) (address host : GoString)
    (k : Nat) (msg : GoString) :
    probeCount ((List.range k).flatMap (refusedProbe probe address host) ++
      [.dialTimeout address 2, .connClose, .print msg]) = k + 1 := by
  have := probeCount_refused probe address host 0 k
  unfold probeCount at this ⊢
  rw [List.countP_append, List.range_eq_range', this]
  simp [List.countP_cons]

theorem probeCount_append (a b : List Event) :
    probeCount (a ++ b) = probeCount a + probeCount b := by
  unfold probeCount
  exact List.countP_append _ _ _

/-- C7: when the probes before index `k` are refused and probe `k` is accepted,
`waitForHost` (allowed more than `k` probes) returns nil after exactly the `k`
refused probes, each followed by its message and a one-second wait, then the
accepted probe, the close of that connection and the final message: `k + 1`
probes, one close, `k` waits, and nothing after the close but the message. -/
theorem waitForHost_first_accept (probe : Nat → Option GoString) (host port : GoString)
    (k fuel : Nat) (href : ∀ j, j < k → probe j ≠ none) (hacc : probe k = none)
    (hfuel : k < fuel) :
    waitForHost fuel probe host port =
      .done ((List.range k).flatMap (refusedProbe probe (JoinHostPort host port) host) ++
        [.dialTimeout (JoinHostPort host port) 2, .connClose,
         .print ("Host ".toList ++ host ++ " is back online\n".toList)]) none ∧
    probeCount (waitForHost fuel probe host port).trace = k + 1 ∧
    closeCount (waitForHost fuel probe host port).trace = 1 ∧
    waitCount (waitForHost fuel probe host port).trace = k := by
  rw [waitForHost_accept_eq probe host port k fuel href hacc hfuel]
  refine ⟨rfl, ?_, ?_, ?_⟩
  · simp only [Run.trace]
    unfold probeCount
    rw [List.countP_append, List.range_eq_range']
    have := probeCount_refused probe (JoinHostPort host port) host 0 k
    unfold probeCount at this
    rw [this]
    simp [List.countP_cons]
  · simp only [Run.trace]
    unfold closeCount
    rw [List.count_append, List.range_eq_range']
    have := closeCount_refused probe (JoinHostPort host port) host 0 k
    unfold closeCount at this
    rw [this]
    simp [List.count_cons]
  · simp only [Run.trace]
    unfold waitCount
    rw [List.count_append, List.range_eq_range']
    have := waitCount_refused probe (JoinHostPort host port) host 0 k
    unfold waitCount at this
    rw [this]
    simp [List.count_cons]

/-- C7 at a host that refuses two probes and accepts the third. -/
theorem waitForHost_first_accept_witness :
    waitForHost 5 (fun i => if i < 2 then some "connection refused".toList else none)
        "a.example".toList "22".toList =
      .done ((List.range 2).flatMap
          (refusedProbe (fun i => if i < 2 then some "connection refused".toList else none)
            (JoinHostPort "a.example".toList "22".toList) "a.example".toList) ++
        [.dialTimeout (JoinHostPort "a.example".toList "22".toList) 2, .connClose,
         .print ("Host ".toList ++ "a.example".toList ++ " is back online\n".toList)]) none ∧
    probeCount (waitForHost 5
      (fun i => if i < 2 then some "connection refused".toList else none)
      "a.example".toList "22".toList).trace = 2 + 1 ∧
    closeCount (waitForHost 5
      (fun i => if i < 2 then some "connection refused".toList else none)
      "a.example".toList "22".toList).trace = 1 ∧
    waitCount (waitForHost 5
      (fun i => if i < 2 then some "connection refused".toList else none)
      "a.example".toList "22".toList).trace = 2 :=
  waitForHost_first_accept (fun i => if i < 2 then some "connection refused".toList else none)
    "a.example".toList "22".toList 2 5
    (fun j hj => by simp [hj]) (by decide) (by decide)

/-- C8: when every probe is refused, `waitForHost` allowed `n` probes is still
polling after exactly `n` refused probes, whatever `n` is, it makes probe
`n + 1` when allowed one more, and no bound on the probes makes it return. -/
theorem waitForHost_never_returns (probe : Nat → Option GoString) (host port : GoString)
    (hall : ∀ i, probe i ≠ none) (n : Nat) :
    waitForHost n probe host port =
      .pending ((List.range n).flatMap (refusedProbe probe (JoinHostPort host port) host)) ∧
    probeCount (waitForHost n probe host port).trace = n ∧
    (waitForHost (n + 1) probe host port).trace =
      (waitForHost n probe host port).trace ++
        refusedProbe probe (JoinHostPort host port) host n ∧
    ∀ (tr : List Event) (v : Option GoString), waitForHost n probe host port ≠ .done tr v := by
  rw [waitForHost_refused_eq probe host port hall n,
    waitForHost_refused_eq probe host port hall (n + 1)]
  refine ⟨rfl, ?_, ?_, ?_⟩
  · simp only [Run.trace]
    rw [List.range_eq_range']
    exact probeCount_refused probe _ host 0 n
  · simp only [Run.trace]
    rw [List.range_succ, List.flatMap_append]
    simp
  · intro tr v h
    cases h

/-- C8 at a host that refuses every probe, after three probes. -/
theorem waitForHost_never_returns_witness :
    waitForHost 3 (fun _ => some "connection refused".toList) "a.example".toList "22".toList =
      .pending ((List.range 3).flatMap
        (refusedProbe (fun _ => some "connection refused".toList)
          (JoinHostPort "a.example".toList "22".toList) "a.example".toList)) ∧
    probeCount (waitForHost 3 (fun _ => some "connection refused".toList)
      "a.example".toList "22".toList).trace = 3 ∧
    (waitForHost (3 + 1) (fun _ => some "connection refused".toList)
      "a.example".toList "22".toList).trace =
      (waitForHost 3 (fun _ => some "connection refused".toList)
        "a.example".toList "22".toList).trace ++
        refusedProbe (fun _ => some "connection refused".toList)
          (JoinHostPort "a.example".toList "22".toList) "a.example".toList 3 ∧
    ∀ (tr : List Event) (v : Option GoString),
      waitForHost 3 (fun _ => some "connection refused".toList)
        "a.example".toList "22".toList ≠ .done tr v :=
  waitForHost_never_returns (fun _ => some "connection refused".toList)
    "a.example".toList "22".toList (fun _ => by simp) 3

/-! ## Per-host processing -/

theorem waitForHost_cases (fuel : Nat) (probe : Nat → Option GoString) (host port : GoString) :
    (∃ tr, waitForHost fuel probe host port = .pending tr) ∨
    (∃ tr, waitForHost fuel probe host port = .done tr none) := by
  unfold waitForHost
  simp only []
  cases waitForHostLoop probe (JoinHostPort host port) host fuel 0 [] with
  | pending tr => exact Or.inl ⟨tr, rfl⟩
  | done tr v => exact Or.inr ⟨_, rfl⟩

theorem processHost_dial_error (fuel : Nat) (w : HostWorld) (host : Host) (port : GoString)
    (config : Option ClientConfig) (err : GoString) (h : w.dial = some err) :
    processHost fuel w host port config =
      .done [.print ("\nRebooting ".toList ++ host.hostname ++ "\n".toList),
             .sshDial (dialAddress host.hostname port) config] (some err) := by
  simp [processHost, getSession, h]

theorem processHost_session_error (fuel : Nat) (w : HostWorld) (host : Host) (port : GoString)
    (config : Option ClientConfig) (err : GoString) (h : w.dial = none)
    (hs : w.newSession = some err) :
    processHost fuel w host port config =
      .done [.print ("\nRebooting ".toList ++ host.hostname ++ "\n".toList),
             .sshDial (dialAddress host.hostname port) config, .newSession] (some err) := by
  simp [processHost, getSession, h, hs]

theorem processHost_run_error (fuel : Nat) (w : HostWorld) (host : Host) (port : GoString)
    (config : Option ClientConfig) (msg : GoString) (h : w.dial = none)
    (hs : w.newSession = none) (hr : w.run = .otherError msg) :
    processHost fuel w host port config =
      .done [.print ("\nRebooting ".toList ++ host.hostname ++ "\n".toList),
             .sshDial (dialAddress host.hostname port) config, .newSession,
             .sessionRun "sudo reboot".toList] (some msg) := by
  simp [processHost, getSession, h, hs, hr, rebootMachine, RunOutcome.isError,
    RunOutcome.isExitMissing, RunOutcome.message]

theorem rebootMachine_nil (r : RunOutcome) (hr : r = .success ∨ r = .exitMissing) :
    rebootMachine { run := r } = ([.sessionRun "sudo reboot".toList], none) := by
  rcases hr with rfl | rfl <;> simp [rebootMachine, RunOutcome.isError, RunOutcome.isExitMissing]

theorem processHost_polling (fuel : Nat) (w : HostWorld) (host : Host) (port : GoString)
    (config : Option ClientConfig) (h : w.dial = none) (hs : w.newSession = none)
    (hr : w.run = .success ∨ w.run = .exitMissing) :
    processHost fuel w host port config =
      match waitForHost fuel w.probe host.hostname port with
      | .pending tr => .pending
          ([.print ("\nRebooting ".toList ++ host.hostname ++ "\n".toList),
            .sshDial (dialAddress host.hostname port) config, .newSession,
            .sessionRun "sudo reboot".toList] ++ tr)
      | .done tr _ => .done
          ([.print ("\nRebooting ".toList ++ host.hostname ++ "\n".toList),
            .sshDial (dialAddress host.hostname port) config, .newSession,
            .sessionRun "sudo reboot".toList] ++ tr) none := by
  unfold processHost
  simp only [getSession, h, hs, rebootMachine_nil w.run hr]
  rcases waitForHost_cases fuel w.probe host.hostname port with ⟨tr, ht⟩ | ⟨tr, ht⟩ <;>
    simp [ht]

/-- C4: `processHost` returns an error exactly when `ssh.Dial` fails, the
session cannot be opened, or the outcome of the reboot command is an error
other than the missing exit status.  When the connection is established and
the outcome is success or missing exit status, `rebootMachine` returns nil,
the polling of `waitForHost` follows the reboot command, `processHost` is
pending as long as the polling is, and returns nil once the polling returns,
which it does as soon as a probe is accepted. -/
theorem processHost_error_iff (fuel : Nat) (w : HostWorld) (host : Host) (port : GoString)
    (config : Option ClientConfig) :
    ((∃ tr err, processHost fuel w host port config = .done tr (some err)) ↔
      (w.dial ≠ none ∨ w.newSession ≠ none ∨ ∃ msg, w.run = .otherError msg)) ∧
    (w.dial = none → w.newSession = none → (w.run = .success ∨ w.run = .exitMissing) →
      (rebootMachine { run := w.run }).2 = none ∧
      (∀ tr, waitForHost fuel w.probe host.hostname port = .pending tr →
        processHost fuel w host port config = .pending
          ([.print ("\nRebooting ".toList ++ host.hostname ++ "\n".toList),
            .sshDial (dialAddress host.hostname port) config, .newSession,
            .sessionRun "sudo reboot".toList] ++ tr)) ∧
      (∀ tr v, waitForHost fuel w.probe host.hostname port = .done tr v →
        processHost fuel w host port config = .done
          ([.print ("\nRebooting ".toList ++ host.hostname ++ "\n".toList),
            .sshDial (dialAddress host.hostname port) config, .newSession,
            .sessionRun "sudo reboot".toList] ++ tr) none) ∧
      (∀ k, (∀ j, j < k → w.probe j ≠ none) → w.probe k = none → k < fuel →
        ∃ tr, processHost fuel w host port config = .done tr none ∧
          probeCount tr = k + 1)) := by
  have hpoll : w.dial = none → w.newSession = none → (w.run = .success ∨ w.run = .exitMissing) →
      ¬ ∃ tr err, processHost fuel w host port config = .done tr (some err) := by
    intro h hs hr ⟨tr, err, he⟩
    rw [processHost_polling fuel w host port config h hs hr] at he
    rcases waitForHost_cases fuel w.probe host.hostname port with ⟨t, ht⟩ | ⟨t, ht⟩ <;>
      simp [ht] at he
  refine ⟨⟨?_, ?_⟩, ?_⟩
  · intro herr
    by_contra hno
    simp only [not_or, not_not, not_exists] at hno
    obtain ⟨h, hs, hr⟩ := hno
    have hrun : w.run = .success ∨ w.run = .exitMissing := by
      cases hw : w.run with
      | success => exact Or.inl rfl
      | exitMissing => exact Or.inr rfl
      | otherError msg => exact absurd hw (hr msg)
    exact hpoll h hs hrun herr
  · intro hcase
    cases hd : w.dial with
    | some err => exact ⟨_, err, processHost_dial_error fuel w host port config err hd⟩
    | none =>
      cases hs : w.newSession with
      | some err => exact ⟨_, err, processHost_session_error fuel w host port config err hd hs⟩
      | none =>
        rcases hcase with h | h | ⟨msg, hm⟩
        · exact absurd hd h
        · exact absurd hs h
        · exact ⟨_, msg, processHost_run_error fuel w host port config msg hd hs hm⟩
  · intro h hs hr
    refine ⟨by rw [rebootMachine_nil w.run hr], ?_, ?_, ?_⟩
    · intro tr ht
      rw [processHost_polling fuel w host port config h hs hr, ht]
    · intro tr v ht
      rw [processHost_polling fuel w host port config h hs hr, ht]
    · intro k href hacc hfuel
      have hw := waitForHost_accept_eq w.probe host.hostname port k fuel href hacc hfuel
      rw [processHost_polling fuel w host port config h hs hr, hw]
      refine ⟨_, rfl, ?_⟩
      rw [probeCount_append, probeCount_accept]
      simp [probeCount, List.countP_cons]

/-! ## The loop of `main` -/

theorem dialAttempts_append (a b : List Event) :
    dialAttempts (a ++ b) = dialAttempts a ++ dialAttempts b := by
  unfold dialAttempts
  exact List.filterMap_append _ _ _

theorem dialAttempts_waitForHostLoop (probe : Nat → Option GoString) (address host : GoString)
    (fuel i : Nat) (tr : List Event) :
    dialAttempts (waitForHostLoop probe address host fuel i tr).trace = dialAttempts tr := by
  induction fuel generalizing i tr with
  | zero => simp [waitForHostLoop, Run.trace]
  | succ fuel ih =>
    rw [waitForHostLoop]
    cases hp : probe i with
    | none => simp [Run.trace, dialAttempts_append, dialAttempts]
    | some err =>
      simp only []
      rw [ih, dialAttempts_append]
      simp [dialAttempts]

theorem dialAttempts_waitForHost (fuel : Nat) (probe : Nat → Option GoString)
    (host port : GoString) :
    dialAttempts (waitForHost fuel probe host port).trace = [] := by
  have h := dialAttempts_waitForHostLoop probe (JoinHostPort host port) host fuel 0 []
  unfold waitForHost
  simp only []
  cases hl : waitForHostLoop probe (JoinHostPort host port) host fuel 0 [] with
  | pending tr =>
    rw [hl] at h
    simpa [Run.trace, dialAttempts] using h
  | done tr v =>
    rw [hl] at h
    simp only [Run.trace] at h ⊢
    rw [dialAttempts_append, h]
    simp [dialAttempts]

/-- Every call of `processHost` attempts exactly one connection, to the
address of its host. -/
theorem dialAttempts_processHost (fuel : Nat) (w : HostWorld) (host : Host) (port : GoString)
    (config : Option ClientConfig) :
    dialAttempts (processHost fuel w host port config).trace
      = [dialAddress host.hostname port] := by
  cases hd : w.dial with
  | some err =>
    rw [processHost_dial_error fuel w host port config err hd]
    simp [Run.trace, dialAttempts]
  | none =>
    cases hs : w.newSession with
    | some err =>
      rw [processHost_session_error fuel w host port config err hd hs]
      simp [Run.trace, dialAttempts]
    | none =>
      cases hr : w.run with
      | otherError msg =>
        rw [processHost_run_error fuel w host port config msg hd hs hr]
        simp [Run.trace, dialAttempts]
      | success =>
        have hw := dialAttempts_waitForHost fuel w.probe host.hostname port
        rw [processHost_polling fuel w host port config hd hs (Or.inl hr)]
        cases hwf : waitForHost fuel w.probe host.hostname port with
        | pending tr =>
          rw [hwf] at hw
          simp only [Run.trace] at hw ⊢
          rw [dialAttempts_append, hw]
          simp [dialAttempts]
        | done tr v =>
          rw [hwf] at hw
          simp only [Run.trace] at hw ⊢
          rw [dialAttempts_append, hw]
          simp [dialAttempts]
      | exitMissing =>
        have hw := dialAttempts_waitForHost fuel w.probe host.hostname port
        rw [processHost_polling fuel w host port config hd hs (Or.inr hr)]
        cases hwf : waitForHost fuel w.probe host.hostname port with
        | pending tr =>
          rw [hwf] at hw
          simp only [Run.trace] at hw ⊢
          rw [dialAttempts_append, hw]
          simp [dialAttempts]
        | done tr v =>
          rw [hwf] at hw
          simp only [Run.trace] at hw ⊢
          rw [dialAttempts_append, hw]
          simp [dialAttempts]

theorem mainLoop_all_ok (fuel : Nat) (hw : Nat → HostWorld) (port : GoString)
    (config : Option ClientConfig) (rest : List Host) (i : Nat) (tr : List Event)
    (h : ∀ (j : Nat) (host : Host), rest[j]? = some host →
      ∃ t, processHost fuel (hw (i + j)) host port config = .done t none) :
    ∃ out, mainLoop fuel hw port config rest i tr = .done out 0 ∧
      dialAttempts out
        = dialAttempts tr ++ rest.map (fun host => dialAddress host.hostname port) := by
  induction rest generalizing i tr with
  | nil => exact ⟨tr, rfl, by simp⟩
  | cons host rest ih =>
    obtain ⟨t, ht⟩ := h 0 host (by simp)
    have hd := dialAttempts_processHost fuel (hw i) host port config
    rw [Nat.add_zero] at ht
    rw [ht] at hd
    simp only [Run.trace] at hd
    have hrest : ∀ (j : Nat) (x : Host), rest[j]? = some x →
        ∃ t, processHost fuel (hw (i + 1 + j)) x port config = .done t none := by
      intro j x hx
      have := h (j + 1) x (by simpa using hx)
      have e : i + (j + 1) = i + 1 + j := by omega
      rwa [e] at this
    obtain ⟨out, hout, hatt⟩ := ih (i + 1) (tr ++ t ++ [.sleep 5]) hrest
    refine ⟨out, ?_, ?_⟩
    · rw [mainLoop, ht]
      exact hout
    · rw [hatt, dialAttempts_append, dialAttempts_append, hd]
      simp [dialAttempts]

theorem mainLoop_first_bad (fuel : Nat) (hw : Nat → HostWorld) (port : GoString)
    (config : Option ClientConfig) (rest : List Host) (i : Nat) (tr : List Event)
    (k : Nat) (bad : Host) (hk : rest[k]? = some bad)
    (hok : ∀ (j : Nat) (host : Host), j < k → rest[j]? = some host →
      ∃ t, processHost fuel (hw (i + j)) host port config = .done t none)
    (hbad : ∀ t, processHost fuel (hw (i + k)) bad port config ≠ .done t none) :
    dialAttempts (mainLoop fuel hw port config rest i tr).trace
      = dialAttempts tr ++ (rest.take (k + 1)).map (fun host => dialAddress host.hostname port) ∧
    ((∃ t, processHost fuel (hw (i + k)) bad port config = .pending t ∧
        ∃ out, mainLoop fuel hw port config rest i tr = .pending out) ∨
     (∃ t err, processHost fuel (hw (i + k)) bad port config = .done t (some err) ∧
        ∃ out, mainLoop fuel hw port config rest i tr = .done out 1)) := by
  induction rest generalizing i tr k with
  | nil => simp at hk
  | cons host rest ih =>
    cases k with
    | zero =>
      have hb : host = bad := by simpa using hk
      subst hb
      rw [Nat.add_zero] at hbad ⊢
      have hd := dialAttempts_processHost fuel (hw i) host port config
      rw [mainLoop]
      cases hp : processHost fuel (hw i) host port config with
      | pending t =>
        rw [hp] at hd
        simp only [Run.trace] at hd ⊢
        refine ⟨?_, Or.inl ⟨t, by simpa using hp, _, rfl⟩⟩
        rw [dialAttempts_append, hd]
        simp
      | done t v =>
        cases v with
        | none => exact absurd hp (hbad t)
        | some err =>
          rw [hp] at hd
          simp only [Run.trace] at hd ⊢
          refine ⟨?_, Or.inr ⟨t, err, by simpa using hp, _, rfl⟩⟩
          rw [dialAttempts_append, dialAttempts_append, hd]
          simp [dialAttempts]
    | succ k =>
      obtain ⟨t, ht⟩ := hok 0 host (by omega) (by simp)
      rw [Nat.add_zero] at ht
      have hd := dialAttempts_processHost fuel (hw i) host port config
      rw [ht] at hd
      simp only [Run.trace] at hd
      have e : i + (k + 1) = i + 1 + k := by omega
      rw [e] at hbad ⊢
      have hk2 : rest[k]? = some bad := by simpa using hk
      have hok2 : ∀ (j : Nat) (x : Host), j < k → rest[j]? = some x →
          ∃ t, processHost fuel (hw (i + 1 + j)) x port config = .done t none := by
        intro j x hj hx
        have := hok (j + 1) x (by omega) (by simpa using hx)
        have e2 : i + (j + 1) = i + 1 + j := by omega
        rwa [e2] at this
      have := ih (i + 1) (tr ++ t ++ [.sleep 5]) k hk2 hok2 hbad
      rw [mainLoop, ht]
      simp only []
      refine ⟨?_, this.2⟩
      rw [this.1, dialAttempts_append, dialAttempts_append, hd]
      simp [dialAttempts]

theorem mainLoop_code (fuel : Nat) (hw : Nat → HostWorld) (port : GoString)
    (config : Option ClientConfig) (rest : List Host) (i : Nat) (tr out : List Event)
    (c : Nat) (h : mainLoop fuel hw port config rest i tr = .done out c) : c = 0 ∨ c = 1 := by
  induction rest generalizing i tr with
  | nil =>
    rw [mainLoop] at h
    injection h with _ hc
    exact Or.inl hc.symm
  | cons host rest ih =>
    rw [mainLoop] at h
    cases hp : processHost fuel (hw i) host port config with
    | pending t => rw [hp] at h; cases h
    | done t v =>
      rw [hp] at h
      cases v with
      | none => exact ih _ _ h
      | some err =>
        injection h with _ hc
        exact Or.inr hc.symm

/-! ## The function `main` -/

theorem main_no_flag (fuel : Nat) (w : World) (flags : Flags) (h : flags.hosts = []) :
    main fuel w flags = .done [.print "No file name passed\n".toList] 2 := by
  unfold main
  rw [if_pos h]

theorem main_parse_error (fuel : Nat) (w : World) (flags : Flags) (err : GoString)
    (hflag : flags.hosts ≠ []) (h : (getHosts w.readFile flags.hosts).2 = some err) :
    main fuel w flags = .done [.readFile flags.hosts, .print (err ++ "\n".toList)] 1 := by
  unfold main
  rw [if_neg hflag]
  rcases hg : getHosts w.readFile flags.hosts with ⟨a, b⟩
  rw [hg] at h
  simp only at h
  subst h
  rfl

theorem main_config_error (fuel : Nat) (w : World) (flags : Flags) (err : GoString)
    (hflag : flags.hosts ≠ []) (h : (getHosts w.readFile flags.hosts).2 = none)
    (hc : (getSSHConfig w flags.key flags.passphrase flags.user).2 = some err) :
    main fuel w flags =
      .done [.readFile flags.hosts, .readFile flags.key, .print (err ++ "\n".toList)] 1 := by
  unfold main
  rw [if_neg hflag]
  rcases hg : getHosts w.readFile flags.hosts with ⟨a, b⟩
  rw [hg] at h
  simp only at h
  subst h
  rcases hs : getSSHConfig w flags.key flags.passphrase flags.user with ⟨c, d⟩
  rw [hs] at hc
  simp only at hc
  subst hc
  rfl

theorem main_ok (fuel : Nat) (w : World) (flags : Flags)
    (hflag : flags.hosts ≠ []) (h : (getHosts w.readFile flags.hosts).2 = none)
    (hc : (getSSHConfig w flags.key flags.passphrase flags.user).2 = none) :
    main fuel w flags =
      mainLoop fuel w.host flags.port (getSSHConfig w flags.key flags.passphrase flags.user).1
        ((getHosts w.readFile flags.hosts).1.getD []) 0
        [.readFile flags.hosts, .readFile flags.key] := by
  unfold main
  rw [if_neg hflag]
  rcases hg : getHosts w.readFile flags.hosts with ⟨a, b⟩
  rw [hg] at h
  simp only at h
  subst h
  rcases hs : getSSHConfig w flags.key flags.passphrase flags.user with ⟨c, d⟩
  rw [hs] at hc
  simp only at hc
  subst hc
  rfl

theorem hostFails_not_succeeds (fuel : Nat) (w : World) (port : GoString)
    (config : Option ClientConfig) (hosts : List Host) (k : Nat)
    (h : HostFails fuel w port config hosts k) : ¬ HostSucceeds fuel w port config hosts k := by
  rintro ⟨x, t, hx, hp⟩
  obtain ⟨y, t2, err, hy, hq⟩ := h
  rw [hx] at hy
  cases hy
  rw [hp] at hq
  cases hq

/-- The attempts of the loop of `main` when every host succeeds. -/
theorem attempts_all_ok (fuel : Nat) (w : World) (port : GoString)
    (config : Option ClientConfig) (hosts : List Host) (tr : List Event)
    (hall : ∀ i, i < hosts.length → HostSucceeds fuel w port config hosts i) :
    ∃ out, mainLoop fuel w.host port config hosts 0 tr = .done out 0 ∧
      dialAttempts out
        = dialAttempts tr ++ hosts.map (fun host => dialAddress host.hostname port) := by
  apply mainLoop_all_ok
  intro j host hj
  have hlt : j < hosts.length := by
    by_contra hge
    rw [List.getElem?_eq_none (by omega)] at hj
    cases hj
  obtain ⟨x, t, hx, hp⟩ := hall j hlt
  rw [hj] at hx
  cases hx
  rw [Nat.zero_add]
  exact ⟨t, hp⟩

/-- The attempts of the loop of `main` when host `k` is the first that does
not succeed. -/
theorem attempts_first_bad (fuel : Nat) (w : World) (port : GoString)
    (config : Option ClientConfig) (hosts : List Host) (tr : List Event) (k : Nat)
    (hk : k < hosts.length) (hbad : ¬ HostSucceeds fuel w port config hosts k)
    (hok : ∀ j, j < k → HostSucceeds fuel w port config hosts j) :
    dialAttempts (mainLoop fuel w.host port config hosts 0 tr).trace
      = dialAttempts tr ++
        (hosts.take (k + 1)).map (fun host => dialAddress host.hostname port) ∧
    ((¬ HostFails fuel w port config hosts k ∧
        ∃ out, mainLoop fuel w.host port config hosts 0 tr = .pending out) ∨
     (HostFails fuel w port config hosts k ∧
        ∃ out, mainLoop fuel w.host port config hosts 0 tr = .done out 1)) := by
  have hget : hosts[k]? = some hosts[k] := List.getElem?_eq_getElem hk
  have h := mainLoop_first_bad fuel w.host port config hosts 0 tr k hosts[k] hget
    (by
      intro j host hj hjh
      obtain ⟨x, t, hx, hp⟩ := hok j hj
      rw [hjh] at hx
      cases hx
      rw [Nat.zero_add]
      exact ⟨t, hp⟩)
    (by
      intro t hp
      rw [Nat.zero_add] at hp
      exact hbad ⟨hosts[k], t, hget, hp⟩)
  refine ⟨h.1, ?_⟩
  rcases h.2 with ⟨t, hp, hout⟩ | ⟨t, err, hp, hout⟩
  · left
    rw [Nat.zero_add] at hp
    refine ⟨?_, hout⟩
    rintro ⟨y, t2, err, hy, hq⟩
    rw [hget] at hy
    cases hy
    rw [hp] at hq
    cases hq
  · right
    rw [Nat.zero_add] at hp
    exact ⟨⟨hosts[k], t, err, hget, hp⟩, hout⟩

theorem hostFails_lt (fuel : Nat) (w : World) (port : GoString)
    (config : Option ClientConfig) (hosts : List Host) (k : Nat)
    (h : HostFails fuel w port config hosts k) : k < hosts.length := by
  obtain ⟨y, _, _, hy, _⟩ := h
  by_contra hge
  rw [List.getElem?_eq_none (by omega)] at hy
  cases hy

/-- C5: after a successful parse and configuration, the connections `main`
attempts are, in file order, those of all the hosts when every host is
processed with success, and otherwise those of the hosts up to and including
the first host whose processing does not succeed (it fails, or its polling
has not returned): no later host is attempted. -/
theorem main_attempt_order (fuel : Nat) (w : World) (flags : Flags) (hosts : List Host)
    (config : Option ClientConfig) (hflag : flags.hosts ≠ [])
    (hparse : getHosts w.readFile flags.hosts = (some hosts, none))
    (hconf : getSSHConfig w flags.key flags.passphrase flags.user = (config, none)) :
    ((∀ i, i < hosts.length → HostSucceeds fuel w flags.port config hosts i) →
      dialAttempts (main fuel w flags).trace
        = hosts.map (fun host => dialAddress host.hostname flags.port)) ∧
    (∀ k, HostFails fuel w flags.port config hosts k →
      (∀ j, j < k → HostSucceeds fuel w flags.port config hosts j) →
      dialAttempts (main fuel w flags).trace
        = (hosts.take (k + 1)).map (fun host => dialAddress host.hostname flags.port)) ∧
    (∀ k, k < hosts.length → ¬ HostSucceeds fuel w flags.port config hosts k →
      (∀ j, j < k → HostSucceeds fuel w flags.port config hosts j) →
      dialAttempts (main fuel w flags).trace
        = (hosts.take (k + 1)).map (fun host => dialAddress host.hostname flags.port)) := by
  have hmain := main_ok fuel w flags hflag (by rw [hparse]) (by rw [hconf])
  rw [hparse, hconf] at hmain
  simp only [Option.getD_some] at hmain
  have hthird : ∀ k, k < hosts.length → ¬ HostSucceeds fuel w flags.port config hosts k →
      (∀ j, j < k → HostSucceeds fuel w flags.port config hosts j) →
      dialAttempts (main fuel w flags).trace
        = (hosts.take (k + 1)).map (fun host => dialAddress host.hostname flags.port) := by
    intro k hk hbad hok
    rw [hmain, (attempts_first_bad fuel w flags.port config hosts _ k hk hbad hok).1]
    simp [dialAttempts]
  refine ⟨?_, ?_, hthird⟩
  · intro hall
    obtain ⟨out, hout, hatt⟩ := attempts_all_ok fuel w flags.port config hosts
      [.readFile flags.hosts, .readFile flags.key] hall
    rw [hmain, hout]
    simp only [Run.trace]
    rw [hatt]
    simp [dialAttempts]
  · intro k hfail hok
    exact hthird k (hostFails_lt _ _ _ _ _ _ hfail) (hostFails_not_succeeds _ _ _ _ _ _ hfail) hok

/-- C5 in the sample world, where the reboot command of the second of three
hosts fails: the first two hosts are attempted, the third never. -/
theorem main_attempt_order_witness :
    demoFlags.hosts ≠ [] ∧
    getHosts demoWorld.readFile demoFlags.hosts = (some demoHosts, none) ∧
    getSSHConfig demoWorld demoFlags.key demoFlags.passphrase demoFlags.user
      = (some demoConfig, none) ∧
    dialAttempts (main 5 demoWorld demoFlags).trace
      = ["a.example:22".toList, "b.example:22".toList] :=
  ⟨by decide, by decide, by decide,
    (main_attempt_order 5 demoWorld demoFlags demoHosts (some demoConfig)
      (by decide) (by decide) (by decide)).2.1 1
      ⟨{ hostname := "b.example".toList, workload := true }, _, _, rfl,
        processHost_run_error 5 (demoWorld.host 1) _ _ _ "connection lost".toList rfl rfl rfl⟩
      (fun j hj => by
        have hj0 : j = 0 := by omega
        subst hj0
        exact ⟨{ hostname := "a.example".toList, workload := false }, _, rfl, rfl⟩)⟩

theorem mainLoop_not_zero_of_bad (fuel : Nat) (w : World) (port : GoString)
    (config : Option ClientConfig) (hosts : List Host) (tr : List Event)
    (hex : ∃ i, i < hosts.length ∧ ¬ HostSucceeds fuel w port config hosts i) :
    ∀ out, mainLoop fuel w.host port config hosts 0 tr ≠ .done out 0 := by
  classical
  intro out hout
  have hex2 : ∃ i, i < hosts.length ∧ ¬ HostSucceeds fuel w port config hosts i := hex
  have hspec := Nat.find_spec hex2
  have hmin : ∀ j, j < Nat.find hex2 → HostSucceeds fuel w port config hosts j := by
    intro j hj
    by_contra hbad
    exact Nat.find_min hex2 hj ⟨by omega, hbad⟩
  rcases (attempts_first_bad fuel w port config hosts tr (Nat.find hex2) hspec.1 hspec.2
    hmin).2 with ⟨_, o, ho⟩ | ⟨_, o, ho⟩
  · rw [ho] at hout; cases hout
  · rw [ho] at hout; cases hout

theorem mainLoop_one_of_fails (fuel : Nat) (w : World) (port : GoString)
    (config : Option ClientConfig) (hosts : List Host) (tr : List Event)
    (hex : ∃ k, HostFails fuel w port config hosts k ∧
      ∀ j, j < k → HostSucceeds fuel w port config hosts j ∨
        HostFails fuel w port config hosts j) :
    ∃ out, mainLoop fuel w.host port config hosts 0 tr = .done out 1 := by
  classical
  obtain ⟨k, hk, hret⟩ := hex
  have hex2 : ∃ i, HostFails fuel w port config hosts i := ⟨k, hk⟩
  have hspec := Nat.find_spec hex2
  have hle : Nat.find hex2 ≤ k := Nat.find_min' hex2 hk
  have hmin : ∀ j, j < Nat.find hex2 → HostSucceeds fuel w port config hosts j := by
    intro j hj
    rcases hret j (by omega) with h | h
    · exact h
    · exact absurd h (Nat.find_min hex2 hj)
  rcases (attempts_first_bad fuel w port config hosts tr (Nat.find hex2)
    (hostFails_lt _ _ _ _ _ _ hspec) (hostFails_not_succeeds _ _ _ _ _ _ hspec)
    hmin).2 with ⟨hnf, _⟩ | ⟨_, hout⟩
  · exact absurd hspec hnf
  · exact hout

/-- C6: `main` exits with code 2, having read nothing, when the `-hosts` flag
is empty; with code 1 when the host list does not parse, when the
configuration cannot be built (no connection being attempted in either case),
or when the processing of a host fails, the hosts before it having returned;
with code 0 when parsing, configuration and every host succeed, and only
then; and with no other code. -/
theorem main_exit_code (fuel : Nat) (w : World) (flags : Flags) :
    (flags.hosts = [] →
      main fuel w flags = .done [.print "No file name passed\n".toList] 2) ∧
    (flags.hosts ≠ [] → (getHosts w.readFile flags.hosts).2 ≠ none →
      ∃ tr, main fuel w flags = .done tr 1 ∧ dialAttempts tr = []) ∧
    (flags.hosts ≠ [] → (getHosts w.readFile flags.hosts).2 = none →
      (getSSHConfig w flags.key flags.passphrase flags.user).2 ≠ none →
      ∃ tr, main fuel w flags = .done tr 1 ∧ dialAttempts tr = []) ∧
    (flags.hosts ≠ [] → (getHosts w.readFile flags.hosts).2 = none →
      (getSSHConfig w flags.key flags.passphrase flags.user).2 = none →
      (∃ k, HostFails fuel w flags.port
          (getSSHConfig w flags.key flags.passphrase flags.user).1
          ((getHosts w.readFile flags.hosts).1.getD []) k ∧
        ∀ j, j < k →
          HostSucceeds fuel w flags.port
            (getSSHConfig w flags.key flags.passphrase flags.user).1
            ((getHosts w.readFile flags.hosts).1.getD []) j ∨
          HostFails fuel w flags.port
            (getSSHConfig w flags.key flags.passphrase flags.user).1
            ((getHosts w.readFile flags.hosts).1.getD []) j) →
      ∃ tr, main fuel w flags = .done tr 1) ∧
    ((∃ tr, main fuel w flags = .done tr 0) ↔
      (flags.hosts ≠ [] ∧ (getHosts w.readFile flags.hosts).2 = none ∧
        (getSSHConfig w flags.key flags.passphrase flags.user).2 = none ∧
        ∀ i, i < ((getHosts w.readFile flags.hosts).1.getD []).length →
          HostSucceeds fuel w flags.port
            (getSSHConfig w flags.key flags.passphrase flags.user).1
            ((getHosts w.readFile flags.hosts).1.getD []) i)) ∧
    (∀ tr c, main fuel w flags = .done tr c → c = 0 ∨ c = 1 ∨ c = 2) := by
  refine ⟨main_no_flag fuel w flags, ?_, ?_, ?_, ⟨?_, ?_⟩, ?_⟩
  · intro hflag herr
    obtain ⟨err, he⟩ := Option.ne_none_iff_exists'.mp herr
    exact ⟨_, main_parse_error fuel w flags err hflag he, by simp [dialAttempts]⟩
  · intro hflag hp herr
    obtain ⟨err, he⟩ := Option.ne_none_iff_exists'.mp herr
    exact ⟨_, main_config_error fuel w flags err hflag hp he, by simp [dialAttempts]⟩
  · intro hflag hp hc hex
    rw [main_ok fuel w flags hflag hp hc]
    exact mainLoop_one_of_fails fuel w flags.port _ _ _ hex
  · rintro ⟨tr, hmain⟩
    by_cases hflag : flags.hosts = []
    · rw [main_no_flag fuel w flags hflag] at hmain
      cases hmain
    · cases hp : (getHosts w.readFile flags.hosts).2 with
      | some err =>
        rw [main_parse_error fuel w flags err hflag hp] at hmain
        cases hmain
      | none =>
        cases hc : (getSSHConfig w flags.key flags.passphrase flags.user).2 with
        | some err =>
          rw [main_config_error fuel w flags err hflag hp hc] at hmain
          cases hmain
        | none =>
          refine ⟨hflag, rfl, rfl, ?_⟩
          intro i hi
          by_contra hbad
          rw [main_ok fuel w flags hflag hp hc] at hmain
          exact mainLoop_not_zero_of_bad fuel w flags.port _ _ _ ⟨i, hi, hbad⟩ tr hmain
  · rintro ⟨hflag, hp, hc, hall⟩
    rw [main_ok fuel w flags hflag hp hc]
    obtain ⟨out, hout, _⟩ := attempts_all_ok fuel w flags.port _ _
      [.readFile flags.hosts, .readFile flags.key] hall
    exact ⟨out, hout⟩
  · intro tr c hmain
    by_cases hflag : flags.hosts = []
    · rw [main_no_flag fuel w flags hflag] at hmain
      injection hmain with _ h2
      exact Or.inr (Or.inr h2.symm)
    · cases hp : (getHosts w.readFile flags.hosts).2 with
      | some err =>
        rw [main_parse_error fuel w flags err hflag hp] at hmain
        injection hmain with _ h2
        exact Or.inr (Or.inl h2.symm)
      | none =>
        cases hc : (getSSHConfig w flags.key flags.passphrase flags.user).2 with
        | some err =>
          rw [main_config_error fuel w flags err hflag hp hc] at hmain
          injection hmain with _ h2
          exact Or.inr (Or.inl h2.symm)
        | none =>
          rw [main_ok fuel w flags hflag hp hc] at hmain
          rcases mainLoop_code _ _ _ _ _ _ _ _ _ hmain with h | h
          · exact Or.inl h
          · exact Or.inr (Or.inl h)

/-- A host whose connection is established, whose reboot command ends with
success or without exit status, and one of whose first `fuel` probes is
accepted, is processed with success. -/
theorem hostSucceeds_of_accept (fuel : Nat) (w : World) (port : GoString)
    (config : Option ClientConfig) (hosts : List Host) (i : Nat) (hi : i < hosts.length)
    (hd : (w.host i).dial = none) (hs : (w.host i).newSession = none)
    (hr : (w.host i).run = .success ∨ (w.host i).run = .exitMissing)
    (hacc : ∃ k, k < fuel ∧ (w.host i).probe k = none) :
    HostSucceeds fuel w port config hosts i := by
  classical
  have hex : ∃ k, (w.host i).probe k = none := by
    obtain ⟨k, _, hk⟩ := hacc
    exact ⟨k, hk⟩
  have hfirst : Nat.find hex < fuel := by
    obtain ⟨k, hk, hk2⟩ := hacc
    exact lt_of_le_of_lt (Nat.find_min' hex hk2) hk
  have hw := waitForHost_accept_eq (w.host i).probe hosts[i].hostname port (Nat.find hex) fuel
    (fun j hj => Nat.find_min hex hj) (Nat.find_spec hex) hfirst
  have hp := processHost_polling fuel (w.host i) hosts[i] port config hd hs hr
  rw [hw] at hp
  exact ⟨hosts[i], _, List.getElem?_eq_getElem hi, hp⟩

/-- The whole run of `main` on the file `a.example`, `b.example workload` when
every command and every probe is accepted: the two hosts in file order, each
followed by the five-second wait, and exit code 0. -/
theorem main_calm_run :
    main 1 calmWorld demoFlags =
      .done [.readFile "hosts.txt".toList, .readFile "/root/.ssh/id_rsa".toList,
        .print "\nRebooting a.example\n".toList,
        .sshDial "a.example:22".toList (some demoConfig), .newSession,
        .sessionRun "sudo reboot".toList,
        .dialTimeout "a.example:22".toList 2, .connClose,
        .print "Host a.example is back online\n".toList, .sleep 5,
        .print "\nRebooting b.example\n".toList,
        .sshDial "b.example:22".toList (some demoConfig), .newSession,
        .sessionRun "sudo reboot".toList,
        .dialTimeout "b.example:22".toList 2, .connClose,
        .print "Host b.example is back online\n".toList, .sleep 5] 0 := by
  rfl

/-- The whole run of `main` in `demoWorld`, where the reboot command of the
second host fails: exit code 1, the third host never attempted. -/
theorem main_demo_run :
    main 5 demoWorld demoFlags =
      .done [.readFile "hosts.txt".toList, .readFile "/root/.ssh/id_rsa".toList,
        .print "\nRebooting a.example\n".toList,
        .sshDial "a.example:22".toList (some demoConfig), .newSession,
        .sessionRun "sudo reboot".toList,
        .dialTimeout "a.example:22".toList 2,
        .print "Host a.example is not reachable yet: connection refused\n".toList, .sleep 1,
        .dialTimeout "a.example:22".toList 2, .connClose,
        .print "Host a.example is back online\n".toList, .sleep 5,
        .print "\nRebooting b.example\n".toList,
        .sshDial "b.example:22".toList (some demoConfig), .newSession,
        .sessionRun "sudo reboot".toList,
        .print "connection lost\n".toList] 1 := by
  rfl

/-! ## The two addresses of a host -/

theorem dialAddress_length (host port : GoString) :
    (dialAddress host port).length = host.length + port.length + 1 := by
  simp [dialAddress]
  omega

/-- C10, as the claim states it, fails: the hostname `fe80%eth0` contains a
percent sign, and the address dialled for the reboot is the address probed. -/
theorem address_percent_counterexample :
    ¬ (∀ host port : GoString, (':' ∈ host ∨ '%' ∈ host) →
        dialAddress host port ≠ JoinHostPort host port) := by
  intro h
  exact h "fe80%eth0".toList "22".toList (Or.inr (by decide)) (by decide)

/-- C10, amended: the address `processHost` dials equals the address
`waitForHost` probes exactly when the hostname contains no colon; a hostname
with a colon is probed in square brackets and dialled without them. -/
theorem address_eq_iff (host port : GoString) :
    (dialAddress host port = JoinHostPort host port ↔ ':' ∉ host) ∧
    (':' ∈ host → JoinHostPort host port = "[".toList ++ host ++ "]:".toList ++ port) ∧
    dialAddress host port = host ++ ":".toList ++ port := by
  refine ⟨⟨?_, ?_⟩, ?_, rfl⟩
  · intro heq hmem
    have hlen := congrArg List.length heq
    rw [dialAddress_length] at hlen
    simp [JoinHostPort, hmem] at hlen
    omega
  · intro hno
    simp [JoinHostPort, hno, dialAddress]
  · intro hmem
    simp [JoinHostPort, hmem]

end Rebooter
